import Mathlib

/-!
# Terms-Compliance-Agent: verification of the review-pipeline specification

Shallow embedding of the contract-clause review pipeline:

* `utils.py` — rule-based validator (`is_valid_contract_clause`), text
  normalizer (`clean_clause_text`), fairness-response parsing
  (`parse_fairness_response`), RAG-result formatting (`format_rag_results`)
  and the result logger (`save_result`).
* `langgraph_components/state.py` — the `ContractState` record.
* `langgraph_components/graph.py` — the routing functions
  (`route_after_clean`, `route_after_fairness`, `route_after_retrieve`,
  `route_feedback`) and the graph wiring of `create_graph`, embedded as an
  explicit step function `graph_step` on a node/state pair.
* `ui_modules/pdf_module.py` — the batch analysis loop.
* `app.py` — the initial state of a session and the set of feedback payloads
  the chat UI can produce.

The node bodies of `langgraph_components/nodes.py` and the constants of
`config2.py` are not part of the sources; where a claim depends on them they
are modelled from the spec, and each such definition carries a doc comment
starting with `Modelled from the spec:`.

Python strings are modelled as `List Char` for free-form text and as `String`
for enumeration-like values (labels, feedback, routing keys).
-/

/-- Python `\s` / `str.strip()` whitespace, restricted to the ASCII whitespace
characters (Python additionally strips rare Unicode spaces, which no input in
this development uses). -/
def isPySpace (c : Char) : Bool :=
  c = ' ' || c = '\t' || c = '\n' || c = '\r' || c = '\x0b' || c = '\x0c'

/-- Python `str.strip()`: drop leading and trailing whitespace. -/
def pyStrip (l : List Char) : List Char :=
  ((l.dropWhile isPySpace).reverse.dropWhile isPySpace).reverse

/-- Python `str.lower()` (the values compared in the routers are ASCII). -/
def pyLower (s : String) : String :=
  String.mk (s.toList.map Char.toLower)

/-- Python's substring operator `needle in haystack`. -/
def hasSub (needle : List Char) : List Char → Bool
  | [] => needle.isEmpty
  | c :: rest => needle.isPrefixOf (c :: rest) || hasSub needle rest

/-! ## utils.py: `is_valid_contract_clause` (lines 27-53) -/

/-- The `contract_keywords` list of `is_valid_contract_clause`. -/
def contract_keywords : List (List Char) :=
  ["조항".toList, "조건".toList, "약관".toList, "규정".toList, "제".toList,
   "항".toList, "조".toList, "자".toList, "금지".toList, "가능".toList,
   "불가".toList, "의무".toList, "책임".toList, "권리".toList, "계약".toList,
   "해지".toList, "중단".toList, "변경".toList, "환불".toList, "배상".toList,
   "배제".toList, "면책".toList, "수수료".toList, "이용료".toList,
   "결제".toList, "할인".toList, "서비스".toList, "제공".toList,
   "개인정보".toList, "보호".toList, "이용".toList, "관리".toList,
   "통지".toList, "동의".toList, "유효".toList, "기간".toList, "상효".toList,
   "시행".toList, "효력".toList, "청구".toList, "위반".toList,
   "손해배상".toList, "면책조항".toList, "이용자".toList, "회사".toList,
   "당사자".toList, "할부거래".toList, "회원".toList, "고객".toList,
   "연회비".toList, "신용카드".toList]

/-- The casual-conversation keyword list of `is_valid_contract_clause`. -/
def chat_keywords : List (List Char) :=
  ["안녕하세요".toList, "반갑습니다".toList, "뭐해".toList, "뭐야".toList,
   "어때".toList, "날씨".toList, "오늘".toList, "내일".toList,
   "궁금해".toList, "알려줘".toList, "재밌".toList, "슬프".toList,
   "기쁘".toList, "화나".toList]

/-- `is_valid_contract_clause` from `src/utils.py`: rule-based input
validation returning `(accepted, reason)`. -/
def is_valid_contract_clause (clause0 : List Char) : Bool × String :=
  let clause := pyStrip clause0
  if clause.length < 20 then
    (false, "입력이 너무 짧습니다 (최소 20자 필요)")
  else if !(contract_keywords.any fun k => hasSub k clause) then
    (false, "약관 관련 키워드 미검출 (예: 조항, 약관, 조건, 의무 등)")
  else if clause.contains '?' || clause.contains '？' then
    (false, "질문 형식으로 보입니다. 약관 조항을 입력해주세요.")
  else if chat_keywords.any fun k => hasSub k clause then
    (false, "일상 대화 형식으로 보입니다. 약관 조항을 입력해주세요.")
  else
    (true, "검증 통과")

/-! ## utils.py: `clean_clause_text` (lines 259-265)

Each `re.sub` of `clean_clause_text` is embedded as a left-to-right scan with
the same non-overlapping leftmost-match semantics as Python's `re.sub`. -/

/-- The character class `[\s•\-\*]` of the first substitution. -/
def inBulletClass (c : Char) : Bool :=
  isPySpace c || c = '•' || c = '-' || c = '*'

/-- Scan for `re.sub(r'^[\s•\-\*]+', '', text, flags=re.MULTILINE)`.
The flag argument means `^` matches at the start of the string and after every
`'\n'`; the Boolean argument is true while inside such a match. -/
def cleanSub1Go : Bool → List Char → List Char
  | _, [] => []
  | skipping, c :: rest =>
    if skipping && inBulletClass c then cleanSub1Go true rest
    else if c = '\n' then '\n' :: cleanSub1Go true rest
    else c :: cleanSub1Go false rest

/-- `re.sub(r'^[\s•\-\*]+', '', text, flags=re.MULTILINE)`. -/
def cleanSub1 (l : List Char) : List Char := cleanSub1Go true l

/-- The circled-digit characters of the second substitution. -/
def circledDigits : List Char :=
  ['①', '②', '③', '④', '⑤', '⑥', '⑦', '⑧', '⑨', '⑩']

/-- Scan for `re.sub(r'[①②③④⑤⑥⑦⑧⑨⑩]\s*', '', ...)`; the Boolean is true
while consuming the `\s*` tail of a match. -/
def cleanSub2Go : Bool → List Char → List Char
  | _, [] => []
  | skipping, c :: rest =>
    if skipping && isPySpace c then cleanSub2Go true rest
    else if circledDigits.contains c then cleanSub2Go true rest
    else c :: cleanSub2Go false rest

/-- `re.sub(r'[①②③④⑤⑥⑦⑧⑨⑩]\s*', '', ...)`. -/
def cleanSub2 (l : List Char) : List Char := cleanSub2Go false l

/-- Scan for `re.sub(r'\(\d+\)\s*', '', ...)` with explicit fuel so that the
definition is structurally recursive (the fuel never runs out when it starts
at `length + 1`). Since `\d` and `)` are disjoint, the greedy match of `\d+`
needs no backtracking. -/
def cleanSub3Fuel : Nat → List Char → List Char
  | 0, l => l
  | _ + 1, [] => []
  | fuel + 1, c :: rest =>
    if c = '(' && !(rest.takeWhile Char.isDigit).isEmpty
        && (rest.dropWhile Char.isDigit).head? = some ')' then
      cleanSub3Fuel fuel (((rest.dropWhile Char.isDigit).tail).dropWhile isPySpace)
    else c :: cleanSub3Fuel fuel rest

/-- `re.sub(r'\(\d+\)\s*', '', ...)`. -/
def cleanSub3 (l : List Char) : List Char := cleanSub3Fuel (l.length + 1) l

/-- Scan for `re.sub(r'\s+', ' ', ...)`: each maximal whitespace run becomes a
single space; the Boolean is true while inside a run. -/
def cleanSub4Go : Bool → List Char → List Char
  | _, [] => []
  | inRun, c :: rest =>
    if isPySpace c then
      if inRun then cleanSub4Go true rest else ' ' :: cleanSub4Go true rest
    else c :: cleanSub4Go false rest

/-- `re.sub(r'\s+', ' ', ...)`. -/
def cleanSub4 (l : List Char) : List Char := cleanSub4Go false l

/-- `clean_clause_text` from `src/utils.py`: the Clean stage's normalizer. -/
def clean_clause_text (text : List Char) : List Char :=
  pyStrip (cleanSub4 (cleanSub3 (cleanSub2 (cleanSub1 text))))

/-! ## utils.py: `parse_fairness_response` (lines 267-282) -/

/-- `parse_fairness_response` from `src/utils.py`. The first line of the
stripped response is the label (defaulting to `불공정` for an empty line
list, which Python's `split` never produces); the second line is parsed as a
float, a `ValueError` yielding `0.0`. Float parsing is external to the model
and passed in as `parseFloat`. -/
def parse_fairness_response (parseFloat : List Char → Option ℚ)
    (response : List Char) : String × ℚ :=
  let lines := (pyStrip response).splitOn '\n'
  let label := match lines.head? with
    | some l0 => String.mk (pyStrip l0)
    | none => "불공정"
  let logit : ℚ := match lines.get? 1 with
    | some l1 => match parseFloat (pyStrip l1) with
      | some q => q
      | none => 0
    | none => 0
  (label, logit)

/-- The label component of `parse_fairness_response` (it does not depend on
the float parser). -/
def parse_fairness_label (response : List Char) : String :=
  (parse_fairness_response (fun _ => none) response).1

/-! ## utils.py: `format_rag_results` (lines 187-257)

Metadata items are Python dicts; a key that may be absent is an `Option`
field, and the bracket access `item['key']` raises `KeyError` when the key is
missing. `list[i]` raises `IndexError` when `i` is out of range. These
exceptions are modelled in an `Except PyErr` result. -/

/-- A retrieved-evidence metadata item (an element of
`state['retrieved_cases_metadata']` / `state['retrieved_laws_metadata']`). -/
structure RagMeta where
  similarity : Option ℚ
  content : Option (List Char)
  metadata : Option (List (String × String))
deriving DecidableEq

/-- The Python exceptions `format_rag_results` can raise. -/
inductive PyErr where
  | keyError (key : String)
  | indexError
deriving DecidableEq

/-- Python dict bracket access `d['key']` on an optional field. -/
def pyKey (field : Option α) (key : String) : Except PyErr α :=
  match field with
  | some v => Except.ok v
  | none => Except.error (PyErr.keyError key)

/-- Python list indexing `l[i]` (non-negative index). -/
def pyIndex (l : List α) (i : Nat) : Except PyErr α :=
  match l.get? i with
  | some v => Except.ok v
  | none => Except.error PyErr.indexError

/-- Python `str.split(sep)` for a non-empty separator, with explicit fuel so
that the definition is structurally recursive (the fuel never runs out when
it starts at `length + 1`). -/
def pySplitFuel (sep : List Char) : Nat → List Char → List (List Char)
  | 0, l => [l]
  | _ + 1, [] => [[]]
  | fuel + 1, c :: rest =>
    if !sep.isEmpty && sep.isPrefixOf (c :: rest) then
      [] :: pySplitFuel sep fuel (List.drop sep.length (c :: rest))
    else
      match pySplitFuel sep fuel rest with
      | [] => [[c]]
      | h :: t => (c :: h) :: t

/-- Python `str.split(sep)`. -/
def pySplit (sep l : List Char) : List (List Char) :=
  pySplitFuel sep (l.length + 1) l

/-- `LAW_FILENAME_MAP` from `src/utils.py`. -/
def LAW_FILENAME_MAP : List (String × String) :=
  [("1_약관법.pdf", "약관법"),
   ("1-2_약관심사지침.pdf", "약관심사지침"),
   ("2_금융소비자법시행령.pdf", "금융소비자법 시행령"),
   ("3_금융소비자보호에관한감독규정.pdf", "금융소비자보호 감독규정"),
   ("4_전자금융거래법.pdf", "전자금융거래법")]

/-- Python's `f'{x:.0%}'` percent rendering, modelled as rounding the ratio
to a whole percent (Python rounds the underlying float half-to-even; no claim
observes the rendered digits). -/
def formatPct (q : ℚ) : List Char :=
  (toString (round (q * 100))).toList ++ ['%']

/-- One iteration of the case loop of `format_rag_results` (lines 229-235):
`case['content'].split('약관:')[1].split('결론:')[0].strip()`, truncation to
70 characters, then the markdown bullet line. The explicit matches propagate
a raised exception to the caller, exactly as Python unwinds the loop. -/
def format_case_line (caseTag : List Char) (cm : RagMeta) :
    Except PyErr (List Char) :=
  match pyKey cm.content "content" with
  | Except.error e => Except.error e
  | Except.ok content =>
    match pyIndex (pySplit "약관:".toList content) 1 with
    | Except.error e => Except.error e
    | Except.ok summary0 =>
      let summary1 := pyStrip ((pySplit "결론:".toList summary0).headD [])
      let summary := if summary1.length > 70 then summary1.take 70 ++ "...".toList
                     else summary1
      match pyKey cm.similarity "similarity" with
      | Except.error e => Except.error e
      | Except.ok sim =>
        Except.ok ("* **`(유사도 ".toList ++ formatPct sim ++ ")`** ".toList
          ++ caseTag ++ summary ++ ['\n'])

/-- The case loop of `format_rag_results`, accumulating `cases_output`. -/
def format_cases_go (caseTag : List Char) :
    List RagMeta → List Char → Except PyErr (List Char)
  | [], acc => Except.ok acc
  | cm :: rest, acc =>
    match format_case_line caseTag cm with
    | Except.error e => Except.error e
    | Except.ok line => format_cases_go caseTag rest (acc ++ line)

/-- One iteration of the law loop of `format_rag_results` (lines 242-255). -/
def format_law_line (lm : RagMeta) : Except PyErr (List Char) :=
  match pyKey lm.similarity "similarity" with
  | Except.error e => Except.error e
  | Except.ok sim =>
    match pyKey lm.content "content" with
    | Except.error e => Except.error e
    | Except.ok content0 =>
      let content1 := pyStrip content0
      let metadata := lm.metadata.getD []
      let source_file := ((metadata.lookup "source_file").getD "알 수 없는 법령")
      let law_name := (LAW_FILENAME_MAP.lookup source_file).getD source_file
      let content := if content1.length > 70 then content1.take 70 ++ "...".toList
                     else content1
      Except.ok ("* **`(유사도 ".toList ++ formatPct sim ++ ")`** **`[".toList
        ++ law_name.toList ++ "]`** - ".toList ++ content ++ ['\n'])

/-- The law loop of `format_rag_results`, accumulating `laws_output`. -/
def format_laws_go : List RagMeta → List Char → Except PyErr (List Char)
  | [], acc => Except.ok acc
  | lm :: rest, acc =>
    match format_law_line lm with
    | Except.error e => Except.error e
    | Except.ok line => format_laws_go rest (acc ++ line)

/-- `format_rag_results` from `src/utils.py`: renders the retrieved cases and
laws as two markdown report strings, or raises (`Except.error`) where the
Python code would. The `공정`-conditional header, tag and empty-list texts of
lines 206-226 are inlined at their use sites. -/
def format_rag_results (cases_meta laws_meta : List RagMeta)
    (fairness_label : String) : Except PyErr (List Char × List Char) :=
  match (if cases_meta.isEmpty then
      Except.ok ((if fairness_label = "공정" then "\n### 1. 참고 사례 (동일 주제)\n"
                  else "\n### 1. 유사한 사례\n").toList ++
        (if fairness_label = "공정" then
          "입력 조항과 동일한 주제의 '불공정' 시정 사례를 찾지 못했습니다.\n".toList
         else "관련 사례를 찾지 못했습니다.\n".toList))
    else
      format_cases_go (if fairness_label = "공정" then "[불공정 사례] " else "").toList
        cases_meta
        ((if fairness_label = "공정" then "\n### 1. 참고 사례 (동일 주제)\n"
          else "\n### 1. 유사한 사례\n").toList ++
          (if fairness_label = "공정" then
            "동일 주제로 검색된 '불공정' 시정 사례입니다. 입력 조항은 아래 사례와 달리 공정한 것으로 보입니다.\n".toList
           else []))) with
  | Except.error e => Except.error e
  | Except.ok cases_output =>
    match (if laws_meta.isEmpty then
        Except.ok ("\n### 2. 참고 법령\n".toList ++ "관련 법령을 찾지 못했습니다.\n".toList)
      else
        format_laws_go laws_meta "\n### 2. 참고 법령\n".toList) with
    | Except.error e => Except.error e
    | Except.ok laws_output => Except.ok (cases_output, laws_output)

/-! ## langgraph_components/state.py: `ContractState`

The TypedDict is embedded as a record. Fields a Python caller might leave
unset carry the default the code reads back through `state.get(key, default)`
(for example `fairness_label` defaults to `''` in `route_after_fairness`).
The extra `logs` field is a ghost variable recording the `status` strings the
nodes pass to the result logger `save_result`; it is not part of the
TypedDict and exists only so the model can observe logging. -/

structure ContractState where
  clause : List Char
  session_id : String
  iteration : Nat
  cleaned_text : List Char
  unfair_type : String
  related_cases : List Char
  improvement_proposal : List Char
  retrieved_cases_metadata : List RagMeta
  retrieved_laws_metadata : List RagMeta
  similarity_threshold : ℚ
  user_email : String
  user_name : String
  fairness_label : String
  fairness_retry_count : Nat
  fairness_confidence : ℚ
  results_history : List (String × ℚ)
  user_feedback : String
  modify_reason : List Char
  retry_action : String
  validation_failed : Bool
  logs : List String

/-! ## langgraph_components/graph.py: routing functions (lines 17-66) -/

/-- `route_after_clean` from `src/langgraph_components/graph.py`. -/
def route_after_clean (s : ContractState) : String :=
  if s.validation_failed then "end" else "fairness_classification"

/-- `route_after_fairness` from `src/langgraph_components/graph.py`. -/
def route_after_fairness (s : ContractState) : String :=
  if s.fairness_label = "" then "fairness_classification"
  else if s.fairness_label = "공정" then "retrieve"
  else if s.fairness_label = "불공정" then "classify"
  else "end"

/-- `route_after_retrieve` from `src/langgraph_components/graph.py`. -/
def route_after_retrieve (s : ContractState) : String :=
  if s.fairness_label = "공정" then "generate_fair_report"
  else "generate_proposal"

/-- `route_feedback` from `src/langgraph_components/graph.py`. -/
def route_feedback (s : ContractState) : String :=
  let feedback := pyLower s.user_feedback
  let retry_action := s.retry_action
  if feedback = "approved" ∨ (feedback = "rejected" ∧ retry_action = "discard") then
    "end"
  else if (feedback = "rejected" ∧ retry_action = "retry") ∨ feedback = "modify" then
    "generate"
  else
    "end"

/-! ## langgraph_components/nodes.py: node bodies, modelled from the spec

`nodes.py` is imported by `graph.py` but is not among the sources, so the
node bodies are modelled from spec §4.1. External collaborators (classifier,
typifier, evidence index, generator, feedback source) appear as an `Oracle`
of per-step inputs. -/

/-- Modelled from the spec: `MAX_ITERATIONS` from `config2.py` (not in the
sources); spec §3: "bounded by `MAX_ITERATIONS` (constant, default 3)". -/
def MAX_ITERATIONS : Nat := 3

/-- Modelled from the spec: the fairness-classification retry cap (spec §2.10
and §4.1 rule 2; the constant's value is not in the sources and no claim
depends on it). -/
def FAIRNESS_RETRY_CAP : Nat := 3

/-- External inputs consumed by one node execution: the classifier response
text and whether its confidence clears the acceptance bound, the typifier's
category, the evidence index's two result lists, the generator's text, and
the feedback payload supplied on resumption. -/
structure Oracle where
  classifier_response : List Char
  conf_ok : Bool
  typify_category : String
  cases : List RagMeta
  laws : List RagMeta
  rag_text : List Char
  proposal : List Char
  fb_user_feedback : String
  fb_retry_action : String
  fb_modify_reason : List Char
  fb_similarity_threshold : ℚ

/-- Modelled from the spec: `clean_text_node` (spec §4.1 rule 1). Runs the
validator `is_valid_contract_clause` and the normalizer `clean_clause_text`
(both from `src/utils.py`); on rejection sets `validation_failed` and stores
the rejection reason in `cleaned_text`. -/
def clean_text_node (s : ContractState) : ContractState :=
  let v := is_valid_contract_clause s.clause
  if v.1 then
    { s with cleaned_text := clean_clause_text s.clause, validation_failed := false }
  else
    { s with cleaned_text := v.2.toList, validation_failed := true }

/-- Modelled from the spec: `fairness_classify_node` (spec §4.1 rule 2). The
classifier response is parsed with `parse_fairness_label` (from
`src/utils.py`); if the label is not a known label, or the confidence is
below the acceptance bound (`conf_ok = false`), and the retry cap has not
been reached, the retry count is incremented and `fairness_label` stays `''`
so that `route_after_fairness` loops; on success the label is stored; when
the cap is exhausted the conservative default `불공정` is stored. -/
def fairness_classify_node (response : List Char) (conf_ok : Bool)
    (s : ContractState) : ContractState :=
  let label := parse_fairness_label response
  let known := label = "공정" ∨ label = "불공정"
  if (¬ known ∨ conf_ok = false) ∧ s.fairness_retry_count < FAIRNESS_RETRY_CAP then
    { s with fairness_retry_count := s.fairness_retry_count + 1, fairness_label := "" }
  else if known then
    { s with fairness_label := label }
  else
    { s with fairness_label := "불공정" }

/-- Modelled from the spec: `classify_type_node` (spec §4.1 rule 3) stores
the typifier's category as `unfair_type`. -/
def classify_type_node (category : String) (s : ContractState) : ContractState :=
  { s with unfair_type := category }

/-- Modelled from the spec: `retrieve_node` (spec §4.1 rule 4) stores the two
retrieved result lists and their formatted text; it touches no other field. -/
def retrieve_node (cases laws : List RagMeta) (ragText : List Char)
    (s : ContractState) : ContractState :=
  { s with retrieved_cases_metadata := cases, retrieved_laws_metadata := laws,
           related_cases := ragText }

/-- Modelled from the spec: `generate_proposal_node` (spec §4.1 rule 5)
stores the generator's draft as `improvement_proposal`. -/
def generate_proposal_node (draft : List Char) (s : ContractState) : ContractState :=
  { s with improvement_proposal := draft }

/-- Modelled from the spec: `generate_fair_report_node` (spec §4.1 rule 6)
stores the confirmation report as `improvement_proposal`. -/
def generate_fair_report_node (report : List Char) (s : ContractState) : ContractState :=
  { s with improvement_proposal := report }

/-- Modelled from the spec: resumption at the `interrupt_for_feedback_node`
suspension point (spec §4.1 rule 7). `app.py` resumes the graph by invoking
it with the feedback payload, which the framework merges into the state
(`app.py` lines 196-208, including the re-injected similarity threshold). -/
def apply_feedback (o : Oracle) (s : ContractState) : ContractState :=
  { s with user_feedback := o.fb_user_feedback,
           retry_action := o.fb_retry_action,
           modify_reason := o.fb_modify_reason,
           similarity_threshold := o.fb_similarity_threshold }

/-- Modelled from the spec: `process_feedback_node` (spec §4.1 rule 8), the
deterministic routing table evaluated in precedence order. Each branch logs
one status record (ghost field `logs`); `modify` at the iteration cap forces
`user_feedback = approved` so that `route_feedback` terminates the graph. -/
def process_feedback_node (s : ContractState) : ContractState :=
  let feedback := pyLower s.user_feedback
  if feedback = "approved" then
    { s with logs := "approved" :: s.logs }
  else if feedback = "rejected" ∧ s.retry_action = "discard" then
    { s with logs := "rejected_discard" :: s.logs }
  else if feedback = "rejected" ∧ s.retry_action = "retry" then
    { s with iteration := s.iteration + 1, logs := "rejected_retry" :: s.logs }
  else if feedback = "modify" ∧ s.iteration < MAX_ITERATIONS then
    { s with iteration := s.iteration + 1, logs := "modify_request" :: s.logs }
  else if feedback = "modify" then
    { s with user_feedback := "approved", logs := "max_iteration_reached" :: s.logs }
  else
    { s with logs := "unrecognized" :: s.logs }

/-! ## langgraph_components/graph.py: `create_graph` wiring (lines 71-131)

The compiled graph is an explicit transition function on a node/state pair.
Each arm runs the node body and then follows the edge (or conditional-edge
dictionary) that `create_graph` attaches to that node; `Node.END` is the
absorbing terminal. -/

/-- The graph nodes added by `create_graph`, plus the terminal `END`. -/
inductive Node where
  | clean
  | fairness_classification
  | classify
  | retrieve
  | generate_proposal
  | generate_fair_report
  | feedback
  | process_feedback
  | END
deriving DecidableEq

/-- One transition of the compiled graph of `create_graph`: execute the
current node's body and follow its (conditional) edges. -/
def graph_step (o : Oracle) : Node × ContractState → Node × ContractState
  | (Node.clean, s) =>
    let s' := clean_text_node s
    (if route_after_clean s' = "end" then Node.END
     else Node.fairness_classification, s')
  | (Node.fairness_classification, s) =>
    let s' := fairness_classify_node o.classifier_response o.conf_ok s
    (if route_after_fairness s' = "fairness_classification" then
       Node.fairness_classification
     else if route_after_fairness s' = "classify" then Node.classify
     else if route_after_fairness s' = "retrieve" then Node.retrieve
     else Node.END, s')
  | (Node.classify, s) => (Node.retrieve, classify_type_node o.typify_category s)
  | (Node.retrieve, s) =>
    let s' := retrieve_node o.cases o.laws o.rag_text s
    (if route_after_retrieve s' = "generate_fair_report" then
       Node.generate_fair_report
     else Node.generate_proposal, s')
  | (Node.generate_proposal, s) => (Node.feedback, generate_proposal_node o.proposal s)
  | (Node.generate_fair_report, s) => (Node.END, generate_fair_report_node o.proposal s)
  | (Node.feedback, s) => (Node.process_feedback, apply_feedback o s)
  | (Node.process_feedback, s) =>
    let s' := process_feedback_node s
    (if route_feedback s' = "end" then Node.END else Node.generate_proposal, s')
  | (Node.END, s) => (Node.END, s)

/-- `k` transitions of the compiled graph under the oracle stream `os`. -/
def graph_run (os : Nat → Oracle) : Nat → Node × ContractState → Node × ContractState
  | 0, p => p
  | k + 1, p => graph_step (os k) (graph_run os k p)

/-! ## app.py: session start and the feedback payloads the UI can produce -/

/-- The `initial_state` dictionary built for a new submission
(`app.py` lines 248-256); keys the dictionary does not set carry the defaults
that `state.get(key, default)` reads back. -/
def initial_state (clause : List Char) (session_id : String)
    (thr : ℚ) : ContractState :=
  { clause := clause
    session_id := session_id
    iteration := 1
    cleaned_text := []
    unfair_type := ""
    related_cases := []
    improvement_proposal := []
    retrieved_cases_metadata := []
    retrieved_laws_metadata := []
    similarity_threshold := thr
    user_email := "unknown"
    user_name := "unknown"
    fairness_label := ""
    fairness_retry_count := 0
    fairness_confidence := 0
    results_history := []
    user_feedback := ""
    modify_reason := []
    retry_action := ""
    validation_failed := false
    logs := [] }

/-- The feedback payloads `run_chatbot_mode` can submit (`app.py` lines
104-189): Approve, Discard, and Modify with a non-blank reason — the Modify
form is only reachable while `iteration < MAX_ITERATIONS` (lines 150-155),
and a blank reason is rejected before submission (line 173). The UI offers
no `rejected`/`retry` combination. -/
def ValidFeedback (o : Oracle) (s : ContractState) : Prop :=
  (o.fb_user_feedback = "approved" ∧ o.fb_retry_action = "") ∨
  (o.fb_user_feedback = "rejected" ∧ o.fb_retry_action = "discard") ∨
  (o.fb_user_feedback = "modify" ∧ o.fb_retry_action = "" ∧
    pyStrip o.fb_modify_reason ≠ [] ∧ s.iteration < MAX_ITERATIONS)

/-- The node/state pairs reachable by a chatbot session: start at `clean` on
an `initial_state`, and at the `feedback` suspension point only resume with a
payload the UI can produce. -/
inductive ReachableUI : Node × ContractState → Prop where
  | init (clause : List Char) (session_id : String) (thr : ℚ) :
      ReachableUI (Node.clean, initial_state clause session_id thr)
  | step (o : Oracle) (p : Node × ContractState) (h : ReachableUI p)
      (hfb : p.1 = Node.feedback → ValidFeedback o p.2) :
      ReachableUI (graph_step o p)

/-- The feedback-dependent fields a state can hold when it arrives at
`process_feedback`, given that feedback only enters through the chat UI. -/
def UIFeedbackState (s : ContractState) : Prop :=
  s.user_feedback = "approved" ∨
  (s.user_feedback = "rejected" ∧ s.retry_action = "discard") ∨
  (s.user_feedback = "modify" ∧ s.iteration < MAX_ITERATIONS)

/-- The session invariant: the iteration counter stays within
`1 .. MAX_ITERATIONS`, and any state sitting at `process_feedback` carries a
UI-producible feedback combination. -/
def SessionInv (p : Node × ContractState) : Prop :=
  1 ≤ p.2.iteration ∧ p.2.iteration ≤ MAX_ITERATIONS ∧
  (p.1 = Node.process_feedback → UIFeedbackState p.2)

/-- A fixed oracle used to instantiate universally quantified theorems at a
concrete input. -/
def oracle0 : Oracle :=
  { classifier_response := []
    conf_ok := false
    typify_category := ""
    cases := []
    laws := []
    rag_text := []
    proposal := []
    fb_user_feedback := ""
    fb_retry_action := ""
    fb_modify_reason := []
    fb_similarity_threshold := 0 }

/-! ## utils.py: `save_result` (lines 55-93) -/

/-- The record `save_result` assembles (its `result` dictionary). -/
structure LogRecord where
  timestamp : String
  session_id : String
  user_email : String
  user_name : String
  status : String
  iteration : Nat
  total_iterations : Nat
  original_clause : List Char
  cleaned_text : List Char
  unfair_type : String
  improvement_proposal : List Char
  user_feedback : String
  modify_reason : List Char

/-- What `save_result` reports on its console: either the success message or
the swallowed-error diagnostic. -/
inductive SaveOutcome where
  | saved (msg : String)
  | logged_error (msg : String)
deriving DecidableEq

/-- The `result` dictionary of `save_result`. Every state key is read through
`state.get(key, default)`, so record extraction cannot raise; Python's
`total_iterations or iteration` treats both `None` and `0` as falsy, as does
`modify_reason or state.get('modify_reason', '')` for the empty string. -/
def save_result_record (now : String) (state : ContractState) (status : String)
    (iteration : Nat) (modify_reason : List Char)
    (total_iterations : Option Nat) : LogRecord :=
  { timestamp := now
    session_id := state.session_id
    user_email := state.user_email
    user_name := state.user_name
    status := status
    iteration := iteration
    total_iterations := match total_iterations with
      | some n => if n = 0 then iteration else n
      | none => iteration
    original_clause := state.clause
    cleaned_text := state.cleaned_text
    unfair_type := state.unfair_type
    improvement_proposal := state.improvement_proposal
    user_feedback := state.user_feedback
    modify_reason := if modify_reason = [] then state.modify_reason
                     else modify_reason }

/-- `save_result` from `src/utils.py`. The directory creation and file append
are the external `write` action, which may fail; the surrounding
`try/except Exception` catches any such failure and only prints a
diagnostic. The result type `Except String SaveOutcome` makes an escaped
exception representable (`Except.error`), which the theorems rule out. -/
def save_result (now : String) (state : ContractState) (status : String)
    (iteration : Nat) (modify_reason : List Char)
    (total_iterations : Option Nat)
    (write : LogRecord → Except String Unit) : Except String SaveOutcome :=
  match write (save_result_record now state status iteration modify_reason
      total_iterations) with
  | Except.ok _ =>
    Except.ok (SaveOutcome.saved
      ("✅ [Log Saved] " ++ status ++ " 저장 성공 -> logs/feedback_log.jsonl"))
  | Except.error e =>
    Except.ok (SaveOutcome.logged_error ("❌ [Log Error] 로그 저장 실패: " ++ e))

/-! ## ui_modules/pdf_module.py: `run_batch_analysis` (lines 8-67) -/

/-- One row of the batch-analysis result table. -/
structure BatchRow where
  original_clause : List Char
  fairness_label : String
  unfair_type : String
  improvement_proposal : List Char
  related_cases_count : Nat
deriving DecidableEq

/-- The success row appended after `app.invoke` returns (`pdf_module.py`
lines 41-47). -/
def batch_success_row (chunk : List Char) (output : ContractState) : BatchRow :=
  { original_clause := chunk
    fairness_label := output.fairness_label
    unfair_type := output.unfair_type
    improvement_proposal := output.improvement_proposal
    related_cases_count := output.retrieved_cases_metadata.length }

/-- The error row appended when analysing a chunk raises (`pdf_module.py`
lines 49-57). -/
def batch_error_row (chunk : List Char) (e : String) : BatchRow :=
  { original_clause := chunk
    fairness_label := "오류"
    unfair_type := "분석 중 오류 발생: " ++ e
    improvement_proposal := "—".toList
    related_cases_count := 0 }

/-- `run_batch_analysis` from `src/ui_modules/pdf_module.py`: each chunk is
analysed as its own session (fresh `thread_id` built from the loop index
`i`); `analyze i chunk` is the `app.invoke` call, which may raise; a raise is
caught, an error row is appended, and the loop continues with the next
chunk. -/
def run_batch_analysis (analyze : Nat → List Char → Except String ContractState) :
    Nat → List (List Char) → List BatchRow
  | _, [] => []
  | i, chunk :: rest =>
    (match analyze i chunk with
     | Except.ok output => batch_success_row chunk output
     | Except.error e => batch_error_row chunk e)
      :: run_batch_analysis analyze (i + 1) rest

/-! # Theorems -/

/-! ## Generic helper lemmas -/

/-- `Node.END` is absorbing: once the graph has terminated it stays
terminated with an unchanged state. -/
theorem graph_run_END (os : Nat → Oracle) (k : Nat) (s : ContractState) :
    graph_run os k (Node.END, s) = (Node.END, s) := by
  induction k with
  | zero => rfl
  | succ k ih => simp [graph_run, ih, graph_step]

/-- Peeling the first transition off a run (the remaining run uses the
shifted oracle stream). -/
theorem graph_run_succ_peel (os : Nat → Oracle) (k : Nat) (p : Node × ContractState) :
    graph_run os (k + 1) p =
      graph_run (fun i => os (i + 1)) k (graph_step (os 0) p) := by
  induction k with
  | zero => rfl
  | succ k ih => simp only [graph_run] at ih ⊢; rw [ih]

/-- Lowercasing the literal feedback values is the identity. -/
theorem pyLower_approved : pyLower "approved" = "approved" := by decide

theorem pyLower_rejected : pyLower "rejected" = "rejected" := by decide

theorem pyLower_modify : pyLower "modify" = "modify" := by decide

/-! ## C1: the ProcessFeedback routing table -/

/-- C1: for every state reaching `ProcessFeedback`, the composite of
`process_feedback_node` and `route_feedback` realises exactly the claimed
table: `approved`, or `rejected` with `discard`, terminates; `rejected` with
`retry`, or `modify` below the iteration cap, regenerates; everything else
(including `modify` at the cap, which is forced to `approved`) terminates.
The routing is a total function, so no input raises. -/
theorem process_feedback_routing_table (s : ContractState) (o : Oracle) :
    (graph_step o (Node.process_feedback, s)).1 =
      (if pyLower s.user_feedback = "approved"
          ∨ (pyLower s.user_feedback = "rejected" ∧ s.retry_action = "discard") then
         Node.END
       else if (pyLower s.user_feedback = "rejected" ∧ s.retry_action = "retry")
          ∨ (pyLower s.user_feedback = "modify" ∧ s.iteration < MAX_ITERATIONS) then
         Node.generate_proposal
       else Node.END) := by
  simp only [graph_step, process_feedback_node, route_feedback]
  split_ifs <;> (simp_all [pyLower_approved]; try omega)

/-! ## C2: modify at the iteration cap -/

/-- C2: at `process_feedback` with `user_feedback = modify` and the iteration
at (or beyond) `MAX_ITERATIONS`, the session terminates: the next node is
`END` and stays `END`, `user_feedback` is forced to `approved`, a
`max_iteration_reached` record is logged, and the iteration does not move. -/
theorem modify_at_cap_forces_approved (s : ContractState) (o : Oracle)
    (hfb : pyLower s.user_feedback = "modify")
    (hit : MAX_ITERATIONS ≤ s.iteration) :
    (graph_step o (Node.process_feedback, s)).1 = Node.END ∧
    (graph_step o (Node.process_feedback, s)).2.user_feedback = "approved" ∧
    (graph_step o (Node.process_feedback, s)).2.logs
      = "max_iteration_reached" :: s.logs ∧
    (graph_step o (Node.process_feedback, s)).2.iteration = s.iteration ∧
    ∀ (os : Nat → Oracle) (k : Nat), 1 ≤ k →
      (graph_run os k (Node.process_feedback, s)).1 = Node.END := by
  have hstep : ∀ o' : Oracle, graph_step o' (Node.process_feedback, s) =
      (Node.END, { s with user_feedback := "approved",
                          logs := "max_iteration_reached" :: s.logs }) := by
    intro o'
    simp only [graph_step, process_feedback_node, route_feedback]
    split_ifs <;> (simp_all [pyLower_approved]; try omega)
  refine ⟨by rw [hstep], by rw [hstep], by rw [hstep], by rw [hstep], ?_⟩
  intro os k hk
  obtain ⟨k, rfl⟩ : ∃ k', k = k' + 1 := ⟨k - 1, by omega⟩
  rw [graph_run_succ_peel, hstep, graph_run_END]

/-! ## C8: the result logger never raises -/

/-- C8: `save_result` never propagates an exception: whatever the state,
status, iteration, reason, and write outcome, the result is `Except.ok`, and
a failing write is reported only through the `logged_error` diagnostic. -/
theorem save_result_never_raises (now : String) (state : ContractState)
    (status : String) (iteration : Nat) (modify_reason : List Char)
    (total_iterations : Option Nat) (write : LogRecord → Except String Unit) :
    (∀ e, save_result now state status iteration modify_reason total_iterations
        write ≠ Except.error e) ∧
    (∀ e, write (save_result_record now state status iteration modify_reason
        total_iterations) = Except.error e →
      save_result now state status iteration modify_reason total_iterations
          write =
        Except.ok (SaveOutcome.logged_error ("❌ [Log Error] 로그 저장 실패: " ++ e))) := by
  constructor
  · intro e
    unfold save_result
    cases write (save_result_record now state status iteration modify_reason
      total_iterations) <;> simp
  · intro e he
    unfold save_result
    rw [he]

/-- Witness for C8 at a concrete failing write. -/
theorem save_result_never_raises_witness :
    save_result "t" (initial_state [] "s" 0) "approved" 1 [] none
        (fun _ => Except.error "disk full") =
      Except.ok (SaveOutcome.logged_error "❌ [Log Error] 로그 저장 실패: disk full") :=
  (save_result_never_raises "t" (initial_state [] "s" 0) "approved" 1 [] none
    (fun _ => Except.error "disk full")).2 "disk full" rfl

/-! ## C9: batch analysis isolates chunk failures -/

/-- The batch loop, started at any index, produces one row per chunk. -/
theorem run_batch_analysis_length (analyze : Nat → List Char → Except String ContractState)
    (chunks : List (List Char)) : ∀ j,
    (run_batch_analysis analyze j chunks).length = chunks.length := by
  induction chunks with
  | nil => intro j; rfl
  | cons c rest ih => intro j; simp [run_batch_analysis, ih (j + 1)]

/-- The batch loop, started at any index, produces the row of chunk `i` from
`analyze` on that chunk alone. -/
theorem run_batch_analysis_get (analyze : Nat → List Char → Except String ContractState)
    (chunks : List (List Char)) : ∀ j i,
    (run_batch_analysis analyze j chunks).get? i =
      (chunks.get? i).map (fun c =>
        match analyze (j + i) c with
        | Except.ok output => batch_success_row c output
        | Except.error e => batch_error_row c e) := by
  induction chunks with
  | nil => intro j i; simp [run_batch_analysis]
  | cons c rest ih =>
    intro j i
    cases i with
    | zero => simp [run_batch_analysis]
    | succ i =>
      have harith : j + 1 + i = j + (i + 1) := by omega
      simpa [run_batch_analysis, harith] using ih (j + 1) i

/-- C9: batch review produces exactly one result row per chunk, in order, and
the row of each chunk is a function of that chunk's own analysis alone — in
particular an exception (`Except.error`) while analysing one chunk yields an
error row for that chunk and leaves every sibling row unchanged. -/
theorem batch_isolates_failures (analyze : Nat → List Char → Except String ContractState)
    (chunks : List (List Char)) :
    (run_batch_analysis analyze 0 chunks).length = chunks.length ∧
    ∀ i, (run_batch_analysis analyze 0 chunks).get? i =
      (chunks.get? i).map (fun c =>
        match analyze i c with
        | Except.ok output => batch_success_row c output
        | Except.error e => batch_error_row c e) := by
  constructor
  · exact run_batch_analysis_length analyze chunks 0
  · intro i
    simpa using run_batch_analysis_get analyze chunks 0 i

/-- Witness for C2: a concrete `modify` feedback at iteration 3 terminates
with forced approval and one `max_iteration_reached` log record. -/
theorem modify_at_cap_forces_approved_witness :
    (graph_step oracle0 (Node.process_feedback,
      { initial_state [] "s" 0 with user_feedback := "modify", iteration := 3 })).1
        = Node.END ∧
    (graph_step oracle0 (Node.process_feedback,
      { initial_state [] "s" 0 with user_feedback := "modify", iteration := 3 })).2.user_feedback
        = "approved" ∧
    (graph_step oracle0 (Node.process_feedback,
      { initial_state [] "s" 0 with user_feedback := "modify", iteration := 3 })).2.logs
        = ["max_iteration_reached"] := by
  have h := modify_at_cap_forces_approved
    { initial_state [] "s" 0 with user_feedback := "modify", iteration := 3 }
    oracle0 (by decide) (by decide)
  exact ⟨h.1, h.2.1, h.2.2.1⟩

/-! ## C4: fairness classification retry loop and label routing -/

/-- C4: after `FairnessClassify`, an unparseable label or an unaccepted
confidence below the retry cap increments the retry counter and self-loops
back to `FairnessClassify`; a successful classification routes `불공정` to
`Typify` (the `classify` node) and `공정` directly to `Retrieve`. -/
theorem fairness_retry_and_label_routing (s : ContractState) (o : Oracle) :
    ((¬ (parse_fairness_label o.classifier_response = "공정" ∨
          parse_fairness_label o.classifier_response = "불공정") ∨
        o.conf_ok = false) ∧
      s.fairness_retry_count < FAIRNESS_RETRY_CAP →
      (graph_step o (Node.fairness_classification, s)).1
          = Node.fairness_classification ∧
      (graph_step o (Node.fairness_classification, s)).2.fairness_retry_count
          = s.fairness_retry_count + 1) ∧
    (o.conf_ok = true → parse_fairness_label o.classifier_response = "불공정" →
      (graph_step o (Node.fairness_classification, s)).1 = Node.classify) ∧
    (o.conf_ok = true → parse_fairness_label o.classifier_response = "공정" →
      (graph_step o (Node.fairness_classification, s)).1 = Node.retrieve) := by
  refine ⟨?_, ?_, ?_⟩
  · intro h
    have hs : fairness_classify_node o.classifier_response o.conf_ok s =
        { s with fairness_retry_count := s.fairness_retry_count + 1,
                 fairness_label := "" } := by
      simp only [fairness_classify_node]
      exact if_pos h
    simp [graph_step, hs, route_after_fairness]
  · intro hconf hlabel
    have hknown : parse_fairness_label o.classifier_response = "공정" ∨
        parse_fairness_label o.classifier_response = "불공정" := Or.inr hlabel
    have hs : fairness_classify_node o.classifier_response o.conf_ok s =
        { s with fairness_label := parse_fairness_label o.classifier_response } := by
      simp only [fairness_classify_node]
      rw [if_neg (by simp [hknown, hconf]), if_pos hknown]
    simp [graph_step, hs, hlabel, route_after_fairness]
  · intro hconf hlabel
    have hknown : parse_fairness_label o.classifier_response = "공정" ∨
        parse_fairness_label o.classifier_response = "불공정" := Or.inl hlabel
    have hs : fairness_classify_node o.classifier_response o.conf_ok s =
        { s with fairness_label := parse_fairness_label o.classifier_response } := by
      simp only [fairness_classify_node]
      rw [if_neg (by simp [hknown, hconf]), if_pos hknown]
    simp [graph_step, hs, hlabel, route_after_fairness]

/-- Witness for C4: an unparseable response self-loops and increments the
retry count; confident `불공정` routes to `classify`; confident `공정`
routes to `retrieve`. -/
theorem fairness_retry_and_label_routing_witness :
    ((graph_step { oracle0 with classifier_response := "음...".toList, conf_ok := true }
        (Node.fairness_classification, initial_state [] "s" 0)).1
      = Node.fairness_classification ∧
     (graph_step { oracle0 with classifier_response := "음...".toList, conf_ok := true }
        (Node.fairness_classification, initial_state [] "s" 0)).2.fairness_retry_count = 1) ∧
    (graph_step { oracle0 with classifier_response := "불공정\n0.9".toList, conf_ok := true }
        (Node.fairness_classification, initial_state [] "s" 0)).1 = Node.classify ∧
    (graph_step { oracle0 with classifier_response := "공정\n0.8".toList, conf_ok := true }
        (Node.fairness_classification, initial_state [] "s" 0)).1 = Node.retrieve := by
  refine ⟨?_, ?_, ?_⟩
  · exact (fairness_retry_and_label_routing (initial_state [] "s" 0)
      { oracle0 with classifier_response := "음...".toList, conf_ok := true }).1
      (by constructor
          · left; decide
          · decide)
  · exact (fairness_retry_and_label_routing (initial_state [] "s" 0)
      { oracle0 with classifier_response := "불공정\n0.9".toList, conf_ok := true }).2.1
      rfl (by decide)
  · exact (fairness_retry_and_label_routing (initial_state [] "s" 0)
      { oracle0 with classifier_response := "공정\n0.8".toList, conf_ok := true }).2.2
      rfl (by decide)

/-! ## C5: invalid input is rejected and terminates before classification -/

/-- A member that the predicate rejects survives `dropWhile`. -/
theorem mem_dropWhile_of_mem (p : Char → Bool) (c : Char) (hp : p c = false) :
    ∀ l : List Char, c ∈ l → c ∈ l.dropWhile p := by
  intro l
  induction l with
  | nil => intro h; exact absurd h (List.not_mem_nil c)
  | cons a t ih =>
    intro h
    rw [List.dropWhile_cons]
    split_ifs with ha
    · rcases List.mem_cons.mp h with rfl | h'
      · rw [hp] at ha; cases ha
      · exact ih h'
    · exact h

/-- A non-whitespace character of the input survives `pyStrip`. -/
theorem mem_pyStrip_of_mem (c : Char) (hp : isPySpace c = false) (l : List Char)
    (h : c ∈ l) : c ∈ pyStrip l := by
  unfold pyStrip
  rw [List.mem_reverse]
  apply mem_dropWhile_of_mem _ _ hp
  rw [List.mem_reverse]
  exact mem_dropWhile_of_mem _ _ hp l h

/-- The validator half of C5: a stripped length under 20, or a question mark
anywhere in the input, forces rejection with a non-empty reason. -/
theorem validator_rejects_short_or_question (x : List Char)
    (h : (pyStrip x).length < 20 ∨ '?' ∈ x ∨ '？' ∈ x) :
    (is_valid_contract_clause x).1 = false ∧
    (is_valid_contract_clause x).2 ≠ "" := by
  have hq : (pyStrip x).length < 20 ∨
      ((pyStrip x).contains '?' || (pyStrip x).contains '？') = true := by
    rcases h with h | h | h
    · exact Or.inl h
    · refine Or.inr ?_
      simp only [Bool.or_eq_true, List.contains, List.elem_iff]
      exact Or.inl (mem_pyStrip_of_mem '?' (by decide) x h)
    · refine Or.inr ?_
      simp only [Bool.or_eq_true, List.contains, List.elem_iff]
      exact Or.inr (mem_pyStrip_of_mem '？' (by decide) x h)
  unfold is_valid_contract_clause
  by_cases h1 : (pyStrip x).length < 20
  · rw [if_pos h1]; exact ⟨rfl, by decide⟩
  · rw [if_neg h1]
    by_cases h2 : (!(contract_keywords.any fun k => hasSub k (pyStrip x))) = true
    · rw [if_pos h2]; exact ⟨rfl, by decide⟩
    · rw [if_neg h2, if_pos (by tauto)]
      exact ⟨rfl, by decide⟩

/-- C5: for every input whose stripped length is under 20 characters, or that
contains `?` or `？`, the validator rejects with a reason, and the session
started on that input terminates straight from `Clean`: the run never sits at
the classifier node, and from the first transition on it is at `END` with
`validation_failed = true`. -/
theorem invalid_input_terminates_before_classifier (x : List Char)
    (h : (pyStrip x).length < 20 ∨ '?' ∈ x ∨ '？' ∈ x) :
    (is_valid_contract_clause x).1 = false ∧
    (is_valid_contract_clause x).2 ≠ "" ∧
    ∀ (session_id : String) (thr : ℚ) (os : Nat → Oracle) (k : Nat),
      (graph_run os k (Node.clean, initial_state x session_id thr)).1 ≠
        Node.fairness_classification ∧
      (1 ≤ k →
        (graph_run os k (Node.clean, initial_state x session_id thr)).1 = Node.END ∧
        (graph_run os k (Node.clean, initial_state x session_id thr)).2.validation_failed
          = true) := by
  obtain ⟨hvalid, hreason⟩ := validator_rejects_short_or_question x h
  refine ⟨hvalid, hreason, ?_⟩
  intro session_id thr os k
  have hclean : clean_text_node (initial_state x session_id thr) =
      { initial_state x session_id thr with
          cleaned_text := (is_valid_contract_clause x).2.toList,
          validation_failed := true } := by
    simp [clean_text_node, hvalid, initial_state]
  have hstep : ∀ o : Oracle,
      graph_step o (Node.clean, initial_state x session_id thr) =
        (Node.END, { initial_state x session_id thr with
          cleaned_text := (is_valid_contract_clause x).2.toList,
          validation_failed := true }) := by
    intro o
    simp [graph_step, hclean, route_after_clean]
  match k with
  | 0 => exact ⟨by simp [graph_run], by omega⟩
  | k + 1 =>
    rw [graph_run_succ_peel, hstep, graph_run_END]
    exact ⟨by simp, fun _ => ⟨rfl, rfl⟩⟩

/-- Witness for C5 at the clause `"?"` (stripped length 1, contains `?`). -/
theorem invalid_input_terminates_before_classifier_witness :
    (is_valid_contract_clause "?".toList).1 = false ∧
    (graph_run (fun _ => oracle0) 1 (Node.clean, initial_state "?".toList "s" 0)).1
      = Node.END := by
  have h := invalid_input_terminates_before_classifier "?".toList (by decide)
  exact ⟨h.1, ((h.2.2 "s" 0 (fun _ => oracle0) 1).2 (by decide)).1⟩

/-! ## C6: the fair path bypasses the feedback loop entirely -/

/-- C6: a session whose fairness label is `공정` runs, from `Retrieve`,
directly through `GenerateFairReport` to the terminal: at no point of the run
does it sit at `AwaitFeedback` (the `feedback` interrupt node) or at
`process_feedback`; the iteration counter and `unfair_type` never change; the
first transition lands on `generate_fair_report` and from the second
transition on the session is terminal. -/
theorem fair_path_never_feedback (s : ContractState) (hl : s.fairness_label = "공정")
    (os : Nat → Oracle) (k : Nat) :
    (graph_run os k (Node.retrieve, s)).1 ≠ Node.feedback ∧
    (graph_run os k (Node.retrieve, s)).1 ≠ Node.process_feedback ∧
    (graph_run os k (Node.retrieve, s)).2.iteration = s.iteration ∧
    (graph_run os k (Node.retrieve, s)).2.unfair_type = s.unfair_type ∧
    (graph_run os 1 (Node.retrieve, s)).1 = Node.generate_fair_report ∧
    (2 ≤ k → (graph_run os k (Node.retrieve, s)).1 = Node.END) := by
  have hstep1 : graph_step (os 0) (Node.retrieve, s) =
      (Node.generate_fair_report,
        retrieve_node (os 0).cases (os 0).laws (os 0).rag_text s) := by
    simp [graph_step, route_after_retrieve, retrieve_node, hl]
  have h1 : graph_run os 1 (Node.retrieve, s) =
      (Node.generate_fair_report,
        retrieve_node (os 0).cases (os 0).laws (os 0).rag_text s) := by
    simpa [graph_run] using hstep1
  have h2 : ∀ k, graph_run os (k + 2) (Node.retrieve, s) =
      (Node.END, generate_fair_report_node (os 1).proposal
        (retrieve_node (os 0).cases (os 0).laws (os 0).rag_text s)) := by
    intro k
    rw [show k + 2 = k + 1 + 1 from rfl, graph_run_succ_peel, hstep1,
      graph_run_succ_peel]
    simp only [graph_step]
    rw [graph_run_END]
  match k with
  | 0 =>
    refine ⟨by simp [graph_run], by simp [graph_run], rfl, rfl, by rw [h1], ?_⟩
    intro hk; omega
  | 1 =>
    refine ⟨by rw [h1]; simp, by rw [h1]; simp, by rw [h1]; rfl, by rw [h1]; rfl,
      by rw [h1], ?_⟩
    intro hk; omega
  | k + 2 =>
    refine ⟨by rw [h2]; simp, by rw [h2]; simp, by rw [h2]; rfl, by rw [h2]; rfl,
      by rw [h1], fun _ => by rw [h2]⟩

/-- Witness for C6: a concrete fair session reaches `END` in two transitions
with the iteration still at 1. -/
theorem fair_path_never_feedback_witness :
    (graph_run (fun _ => oracle0) 2 (Node.retrieve,
      { initial_state [] "s" 0 with fairness_label := "공정" })).1 = Node.END ∧
    (graph_run (fun _ => oracle0) 2 (Node.retrieve,
      { initial_state [] "s" 0 with fairness_label := "공정" })).2.iteration = 1 := by
  have h := fair_path_never_feedback
    { initial_state [] "s" 0 with fairness_label := "공정" } rfl (fun _ => oracle0) 2
  exact ⟨h.2.2.2.2.2 (by omega), h.2.2.1.trans rfl⟩

/-! ## C3: the iteration counter starts at 1, is monotone and capped -/

/-- `clean_text_node` does not touch the iteration counter. -/
theorem clean_text_node_iteration (s : ContractState) :
    (clean_text_node s).iteration = s.iteration := by
  unfold clean_text_node; dsimp only; split <;> rfl

/-- `fairness_classify_node` does not touch the iteration counter. -/
theorem fairness_classify_node_iteration (r : List Char) (c : Bool)
    (s : ContractState) :
    (fairness_classify_node r c s).iteration = s.iteration := by
  unfold fairness_classify_node; dsimp only; split_ifs <;> rfl

/-- `process_feedback_node` never decreases the iteration counter. -/
theorem process_feedback_node_iteration_mono (s : ContractState) :
    s.iteration ≤ (process_feedback_node s).iteration := by
  unfold process_feedback_node; dsimp only; split_ifs <;> simp

/-- The iteration counter never decreases across any transition of the
compiled graph. -/
theorem graph_step_iteration_mono (o : Oracle) (p : Node × ContractState) :
    p.2.iteration ≤ (graph_step o p).2.iteration := by
  obtain ⟨n, s⟩ := p
  cases n with
  | clean => simp [graph_step, clean_text_node_iteration]
  | fairness_classification => simp [graph_step, fairness_classify_node_iteration]
  | classify => simp [graph_step, classify_type_node]
  | retrieve => simp [graph_step, retrieve_node]
  | generate_proposal => simp [graph_step, generate_proposal_node]
  | generate_fair_report => simp [graph_step, generate_fair_report_node]
  | feedback => simp [graph_step, apply_feedback]
  | process_feedback => simpa [graph_step] using process_feedback_node_iteration_mono s
  | END => simp [graph_step]

/-- One step of the graph preserves the session invariant, provided any
resumption at the `feedback` node carries a UI-producible payload. -/
theorem sessionInv_step (o : Oracle) (p : Node × ContractState)
    (hInv : SessionInv p) (hfb : p.1 = Node.feedback → ValidFeedback o p.2) :
    SessionInv (graph_step o p) := by
  obtain ⟨n, s⟩ := p
  obtain ⟨h1, h2, h3⟩ := hInv
  cases n with
  | clean =>
    refine ⟨by simpa [graph_step, clean_text_node_iteration] using h1,
      by simpa [graph_step, clean_text_node_iteration] using h2, ?_⟩
    intro hpf
    simp only [graph_step] at hpf
    split_ifs at hpf
  | fairness_classification =>
    refine ⟨by simpa [graph_step, fairness_classify_node_iteration] using h1,
      by simpa [graph_step, fairness_classify_node_iteration] using h2, ?_⟩
    intro hpf
    simp only [graph_step] at hpf
    split_ifs at hpf
  | classify =>
    refine ⟨by simpa [graph_step, classify_type_node] using h1,
      by simpa [graph_step, classify_type_node] using h2, ?_⟩
    intro hpf
    simp only [graph_step] at hpf
    exact absurd hpf (by simp)
  | retrieve =>
    refine ⟨by simpa [graph_step, retrieve_node] using h1,
      by simpa [graph_step, retrieve_node] using h2, ?_⟩
    intro hpf
    simp only [graph_step] at hpf
    split_ifs at hpf
  | generate_proposal =>
    refine ⟨by simpa [graph_step, generate_proposal_node] using h1,
      by simpa [graph_step, generate_proposal_node] using h2, ?_⟩
    intro hpf
    simp only [graph_step] at hpf
    exact absurd hpf (by simp)
  | generate_fair_report =>
    refine ⟨by simpa [graph_step, generate_fair_report_node] using h1,
      by simpa [graph_step, generate_fair_report_node] using h2, ?_⟩
    intro hpf
    simp only [graph_step] at hpf
    exact absurd hpf (by simp)
  | feedback =>
    refine ⟨by simpa [graph_step, apply_feedback] using h1,
      by simpa [graph_step, apply_feedback] using h2, ?_⟩
    intro _
    rcases hfb rfl with ⟨hu, hr⟩ | ⟨hu, hr⟩ | ⟨hu, hr, hm, hlt⟩
    · exact Or.inl (by simp [graph_step, apply_feedback, hu])
    · exact Or.inr (Or.inl (by simp [graph_step, apply_feedback, hu, hr]))
    · exact Or.inr (Or.inr (by simp [graph_step, apply_feedback, hu, hlt]))
  | process_feedback =>
    have hui := h3 rfl
    simp only [UIFeedbackState] at hui
    rcases hui with hA | ⟨hR, hD⟩ | ⟨hM, hlt⟩
    · have hfeq : pyLower s.user_feedback = "approved" := by
        rw [hA]; exact pyLower_approved
      have hn : process_feedback_node s = { s with logs := "approved" :: s.logs } := by
        simp [process_feedback_node, hfeq]
      refine ⟨by simpa [graph_step, hn] using h1, by simpa [graph_step, hn] using h2, ?_⟩
      intro hpf
      simp only [graph_step] at hpf
      split_ifs at hpf
    · have hfeq : pyLower s.user_feedback = "rejected" := by
        rw [hR]; exact pyLower_rejected
      have hn : process_feedback_node s =
          { s with logs := "rejected_discard" :: s.logs } := by
        simp [process_feedback_node, hfeq, hD]
      refine ⟨by simpa [graph_step, hn] using h1, by simpa [graph_step, hn] using h2, ?_⟩
      intro hpf
      simp only [graph_step] at hpf
      split_ifs at hpf
    · have hfeq : pyLower s.user_feedback = "modify" := by
        rw [hM]; exact pyLower_modify
      have hn : process_feedback_node s =
          { s with iteration := s.iteration + 1,
                   logs := "modify_request" :: s.logs } := by
        simp [process_feedback_node, hfeq, hlt]
      have hiter : (graph_step o (Node.process_feedback, s)).2.iteration
          = s.iteration + 1 := by simp [graph_step, hn]
      refine ⟨by omega, by omega, ?_⟩
      intro hpf
      simp only [graph_step] at hpf
      split_ifs at hpf
  | END =>
    refine ⟨by simpa [graph_step] using h1, by simpa [graph_step] using h2, ?_⟩
    intro hpf
    simp only [graph_step] at hpf
    exact absurd hpf (by simp)

/-- Every state a chatbot session can reach satisfies the session
invariant. -/
theorem reachable_sessionInv (p : Node × ContractState) (h : ReachableUI p) :
    SessionInv p := by
  induction h with
  | init clause session_id thr =>
    exact ⟨by simp [initial_state], by simp [initial_state, MAX_ITERATIONS],
      fun h => Node.noConfusion h⟩
  | step o p hp hfb ih => exact sessionInv_step o p ih hfb

/-- C3: `iteration` starts at 1 on session creation, never decreases across
any transition of the compiled graph, and on every state a chatbot session
can reach it stays between 1 and `MAX_ITERATIONS` (the transition that would
push `modify` past the cap terminates the session instead, per
`process_feedback_node`). -/
theorem iteration_starts_one_monotone_bounded :
    (∀ (clause : List Char) (session_id : String) (thr : ℚ),
      (initial_state clause session_id thr).iteration = 1) ∧
    (∀ (o : Oracle) (p : Node × ContractState),
      p.2.iteration ≤ (graph_step o p).2.iteration) ∧
    (∀ p, ReachableUI p →
      1 ≤ p.2.iteration ∧ p.2.iteration ≤ MAX_ITERATIONS) :=
  ⟨fun _ _ _ => rfl, graph_step_iteration_mono,
   fun p h => ⟨(reachable_sessionInv p h).1, (reachable_sessionInv p h).2.1⟩⟩

/-- Witness for C3 at a freshly created session. -/
theorem iteration_starts_one_monotone_bounded_witness :
    1 ≤ (initial_state [] "s" 0).iteration ∧
    (initial_state [] "s" 0).iteration ≤ MAX_ITERATIONS :=
  iteration_starts_one_monotone_bounded.2.2 (Node.clean, initial_state [] "s" 0)
    (ReachableUI.init [] "s" 0)

/-! ## C10: `format_rag_results` totality bounds and its `IndexError` -/

/-- A list is a prefix (as `isPrefixOf`) of itself followed by anything. -/
theorem isPrefixOf_append_self (sep b : List Char) :
    List.isPrefixOf sep (sep ++ b) = true := by
  induction sep with
  | nil => cases b <;> rfl
  | cons c cs ih => simp [List.isPrefixOf, ih]

/-- Python `split` never returns an empty list of pieces. -/
theorem pySplitFuel_length_pos (sep : List Char) (fuel : Nat) (l : List Char) :
    1 ≤ (pySplitFuel sep fuel l).length := by
  induction fuel generalizing l with
  | zero => simp [pySplitFuel]
  | succ fuel ih =>
    cases l with
    | nil => simp [pySplitFuel]
    | cons c rest =>
      simp only [pySplitFuel]
      split_ifs
      · simp
      · rcases hsp : pySplitFuel sep fuel rest with _ | ⟨h, t⟩
        · simp
        · simp

/-- Splitting a list that contains the (non-empty) separator yields at least
two pieces. -/
theorem pySplitFuel_length_two (sep : List Char) (hs : sep ≠ []) :
    ∀ (a : List Char) (fuel : Nat) (b : List Char),
      (a ++ sep ++ b).length ≤ fuel →
      2 ≤ (pySplitFuel sep fuel (a ++ sep ++ b)).length := by
  intro a
  induction a with
  | nil =>
    intro fuel b hf
    cases sep with
    | nil => exact absurd rfl hs
    | cons c cs =>
      cases fuel with
      | zero => simp at hf
      | succ fuel =>
        have hpre : List.isPrefixOf (c :: cs) (c :: (cs ++ b)) = true :=
          isPrefixOf_append_self (c :: cs) b
        have hunfold : pySplitFuel (c :: cs) (fuel + 1) (c :: (cs ++ b)) =
            [] :: pySplitFuel (c :: cs) fuel
              (List.drop (c :: cs).length (c :: (cs ++ b))) := by
          simp [pySplitFuel, hpre]
        simp only [List.nil_append, List.cons_append, hunfold, List.length_cons]
        exact Nat.succ_le_succ (pySplitFuel_length_pos _ _ _)
  | cons c a' ih =>
    intro fuel b hf
    cases fuel with
    | zero => simp at hf
    | succ fuel =>
      simp only [List.cons_append, pySplitFuel]
      split_ifs
      · simp only [List.length_cons]
        exact Nat.succ_le_succ (pySplitFuel_length_pos _ _ _)
      · have hrest : (a' ++ sep ++ b).length ≤ fuel := by
          simp only [List.cons_append, List.length_cons] at hf
          simp only [List.append_assoc, List.length_append] at hf ⊢
          omega
        have h2 := ih fuel b hrest
        rcases hsp : pySplitFuel sep fuel (a' ++ sep ++ b) with _ | ⟨h, t⟩
        · rw [hsp] at h2; simp at h2
        · rw [hsp] at h2
          simp only [List.length_cons] at h2 ⊢
          omega

/-- An `Except` value whose `isOk` flag is set is an `Except.ok`. -/
theorem exists_ok_of_isOk {x : Except PyErr (List Char)} (h : x.isOk = true) :
    ∃ v, x = Except.ok v := by
  cases x with
  | error e => simp [Except.isOk, Except.toBool] at h
  | ok v => exact ⟨v, rfl⟩

/-- Indexing position 1 of a list of length at least two succeeds. -/
theorem pyIndex_one_ok (l : List (List Char)) (h : 2 ≤ l.length) :
    ∃ v, pyIndex l 1 = Except.ok v := by
  match l, h with
  | x :: y :: t, _ => exact ⟨y, rfl⟩

/-- A case item whose `content` is present and contains `약관:` and whose
`similarity` is present renders without raising. -/
theorem format_case_line_total (caseTag : List Char) (cm : RagMeta)
    (hsim : cm.similarity.isSome = true)
    (hcontent : ∃ t a b, cm.content = some t ∧ t = a ++ "약관:".toList ++ b) :
    ∃ v, format_case_line caseTag cm = Except.ok v := by
  obtain ⟨t, a, b, hct, rfl⟩ := hcontent
  obtain ⟨q, hq⟩ := Option.isSome_iff_exists.mp hsim
  have h2 : 2 ≤ (pySplit ("약관:".toList) (a ++ "약관:".toList ++ b)).length := by
    unfold pySplit
    exact pySplitFuel_length_two ("약관:".toList) (by decide) a _ b (by omega)
  obtain ⟨v1, hv1⟩ := pyIndex_one_ok _ h2
  apply exists_ok_of_isOk
  unfold format_case_line
  rw [hct]
  dsimp only [pyKey]
  rw [hv1]
  dsimp only
  rw [hq]
  dsimp only [pyKey]
  rfl

/-- The case loop renders without raising when every item satisfies the
precondition of `format_case_line_total`. -/
theorem format_cases_go_total (caseTag : List Char) (metas : List RagMeta)
    (h : ∀ cm ∈ metas, cm.similarity.isSome = true ∧
      ∃ t a b, cm.content = some t ∧ t = a ++ "약관:".toList ++ b) :
    ∀ acc, ∃ v, format_cases_go caseTag metas acc = Except.ok v := by
  induction metas with
  | nil => intro acc; exact ⟨acc, rfl⟩
  | cons cm rest ih =>
    intro acc
    obtain ⟨line, hline⟩ := format_case_line_total caseTag cm
      (h cm (List.mem_cons_self cm rest)).1 (h cm (List.mem_cons_self cm rest)).2
    obtain ⟨v, hv⟩ := ih (fun x hx => h x (List.mem_cons_of_mem cm hx)) (acc ++ line)
    refine ⟨v, ?_⟩
    unfold format_cases_go
    rw [hline]
    exact hv

/-- A law item with `similarity` and `content` present renders without
raising. -/
theorem format_law_line_total (lm : RagMeta) (hsim : lm.similarity.isSome = true)
    (hc : lm.content.isSome = true) :
    ∃ v, format_law_line lm = Except.ok v := by
  obtain ⟨q, hq⟩ := Option.isSome_iff_exists.mp hsim
  obtain ⟨t, ht⟩ := Option.isSome_iff_exists.mp hc
  apply exists_ok_of_isOk
  unfold format_law_line
  rw [hq]
  dsimp only [pyKey]
  rw [ht]
  dsimp only [pyKey]
  rfl

/-- The law loop renders without raising when every item carries its keys. -/
theorem format_laws_go_total (metas : List RagMeta)
    (h : ∀ lm ∈ metas, lm.similarity.isSome = true ∧ lm.content.isSome = true) :
    ∀ acc, ∃ v, format_laws_go metas acc = Except.ok v := by
  induction metas with
  | nil => intro acc; exact ⟨acc, rfl⟩
  | cons lm rest ih =>
    intro acc
    obtain ⟨line, hline⟩ := format_law_line_total lm
      (h lm (List.mem_cons_self lm rest)).1 (h lm (List.mem_cons_self lm rest)).2
    obtain ⟨v, hv⟩ := ih (fun x hx => h x (List.mem_cons_of_mem lm hx)) (acc ++ line)
    refine ⟨v, ?_⟩
    unfold format_laws_go
    rw [hline]
    exact hv

/-- C10: `format_rag_results` is total exactly under the unstated
precondition: when every case item carries `similarity` and a `content`
containing `약관:` followed by `결론:`, and every law item carries
`similarity` and `content`, it returns the two report strings (for empty
metadata lists the reports contain the explicit not-found marker
`찾지 못했습니다`); yet on a non-empty case list whose item's content lacks
`약관:`, it raises an unhandled `IndexError`. -/
theorem format_rag_results_total_iff_well_formed :
    (∀ (cases_meta laws_meta : List RagMeta) (label : String),
      (∀ cm ∈ cases_meta, cm.similarity.isSome = true ∧
        ∃ t a b d, cm.content = some t ∧
          t = a ++ "약관:".toList ++ b ++ "결론:".toList ++ d) →
      (∀ lm ∈ laws_meta, lm.similarity.isSome = true ∧ lm.content.isSome = true) →
      ∃ pair, format_rag_results cases_meta laws_meta label = Except.ok pair) ∧
    (∀ label : String, ∃ out1 out2,
      format_rag_results [] [] label = Except.ok (out1, out2) ∧
      hasSub "찾지 못했습니다".toList out1 = true ∧
      hasSub "찾지 못했습니다".toList out2 = true) ∧
    format_rag_results [⟨some (1/2), some "hello".toList, none⟩] [] "불공정"
      = Except.error PyErr.indexError := by
  refine ⟨?_, ?_, by rfl⟩
  · intro cases_meta laws_meta label hcases hlaws
    have hcases' : ∀ cm ∈ cases_meta, cm.similarity.isSome = true ∧
        ∃ t a b, cm.content = some t ∧ t = a ++ "약관:".toList ++ b := by
      intro cm hcm
      obtain ⟨hsim, t, a, b, d, hct, hteq⟩ := hcases cm hcm
      exact ⟨hsim, t, a, b ++ "결론:".toList ++ d, hct, by simp [hteq]⟩
    unfold format_rag_results
    by_cases hce : cases_meta.isEmpty
    · rw [if_pos hce]
      by_cases hle : laws_meta.isEmpty
      · rw [if_pos hle]
        exact ⟨_, rfl⟩
      · rw [if_neg hle]
        obtain ⟨v2, hv2⟩ := format_laws_go_total laws_meta hlaws
          ("\n### 2. 참고 법령\n".toList)
        rw [hv2]
        exact ⟨_, rfl⟩
    · rw [if_neg hce]
      obtain ⟨v1, hv1⟩ := format_cases_go_total
        ((if label = "공정" then "[불공정 사례] " else "")).toList cases_meta hcases'
        (((if label = "공정" then "\n### 1. 참고 사례 (동일 주제)\n"
           else "\n### 1. 유사한 사례\n")).toList ++
          (if label = "공정" then
            "동일 주제로 검색된 '불공정' 시정 사례입니다. 입력 조항은 아래 사례와 달리 공정한 것으로 보입니다.\n".toList
           else []))
      rw [hv1]
      by_cases hle : laws_meta.isEmpty
      · rw [if_pos hle]
        exact ⟨_, rfl⟩
      · rw [if_neg hle]
        obtain ⟨v2, hv2⟩ := format_laws_go_total laws_meta hlaws
          ("\n### 2. 참고 법령\n".toList)
        rw [hv2]
        exact ⟨_, rfl⟩
  · intro label
    by_cases hl : label = "공정"
    · subst hl
      refine ⟨("\n### 1. 참고 사례 (동일 주제)\n입력 조항과 동일한 주제의 '불공정' 시정 사례를 찾지 못했습니다.\n").toList,
        ("\n### 2. 참고 법령\n관련 법령을 찾지 못했습니다.\n").toList, by rfl, by decide, by decide⟩
    · refine ⟨("\n### 1. 유사한 사례\n관련 사례를 찾지 못했습니다.\n").toList,
        ("\n### 2. 참고 법령\n관련 법령을 찾지 못했습니다.\n").toList, ?_, by decide, by decide⟩
      simp [format_rag_results, hl]

/-- Witness for C10's universally quantified part at concrete well-formed
metadata. -/
theorem format_rag_results_total_iff_well_formed_witness :
    ∃ pair, format_rag_results
      [⟨some (9/10), some "약관: 조항 결론: 시정".toList, none⟩]
      [⟨some (4/5), some "법령".toList, some [("source_file", "1_약관법.pdf")]⟩]
      "불공정" = Except.ok pair := by
  apply format_rag_results_total_iff_well_formed.1
  · intro cm hcm
    simp only [List.mem_singleton] at hcm
    subst hcm
    refine ⟨rfl, "약관: 조항 결론: 시정".toList, [], " 조항 ".toList,
      " 시정".toList, rfl, by decide⟩
  · intro lm hlm
    simp only [List.mem_singleton] at hlm
    subst hlm
    exact ⟨rfl, rfl⟩

/-! ## C7: the normalizer is not idempotent; marker-free inputs are -/

/-- Characters of the first-substitution output come from its input. -/
theorem mem_cleanSub1Go (c : Char) :
    ∀ (l : List Char) (b : Bool), c ∈ cleanSub1Go b l → c ∈ l := by
  intro l
  induction l with
  | nil => intro b h; simp [cleanSub1Go] at h
  | cons a rest ih =>
    intro b h
    simp only [cleanSub1Go] at h
    split_ifs at h with h1 h2
    · exact List.mem_cons_of_mem a (ih true h)
    · rcases List.mem_cons.mp h with rfl | h'
      · rw [h2]; exact List.mem_cons_self _ _
      · exact List.mem_cons_of_mem a (ih true h')
    · rcases List.mem_cons.mp h with rfl | h'
      · exact List.mem_cons_self _ _
      · exact List.mem_cons_of_mem a (ih false h')

/-- Characters of the second-substitution output come from its input. -/
theorem mem_cleanSub2Go (c : Char) :
    ∀ (l : List Char) (b : Bool), c ∈ cleanSub2Go b l → c ∈ l := by
  intro l
  induction l with
  | nil => intro b h; simp [cleanSub2Go] at h
  | cons a rest ih =>
    intro b h
    simp only [cleanSub2Go] at h
    split_ifs at h
    · exact List.mem_cons_of_mem a (ih true h)
    · exact List.mem_cons_of_mem a (ih true h)
    · rcases List.mem_cons.mp h with rfl | h'
      · exact List.mem_cons_self _ _
      · exact List.mem_cons_of_mem a (ih false h')

/-- Characters of the third-substitution output come from its input. -/
theorem mem_cleanSub3Fuel (c : Char) :
    ∀ (fuel : Nat) (l : List Char), c ∈ cleanSub3Fuel fuel l → c ∈ l := by
  intro fuel
  induction fuel with
  | zero => intro l h; simp only [cleanSub3Fuel] at h; exact h
  | succ fuel ih =>
    intro l h
    cases l with
    | nil => simp [cleanSub3Fuel] at h
    | cons a rest =>
      simp only [cleanSub3Fuel] at h
      split_ifs at h
      · have h1 := ih _ h
        have h2 : c ∈ (List.dropWhile Char.isDigit rest).tail :=
          ((List.dropWhile_suffix isPySpace).sublist.subset) h1
        have h3 : c ∈ List.dropWhile Char.isDigit rest :=
          (List.tail_sublist _).subset h2
        exact List.mem_cons_of_mem a
          (((List.dropWhile_suffix Char.isDigit).sublist.subset) h3)
      · rcases List.mem_cons.mp h with rfl | h'
        · exact List.mem_cons_self _ _
        · exact List.mem_cons_of_mem a (ih rest h')

/-- Characters of the fourth-substitution output come from its input or are
the space the whitespace runs collapse to. -/
theorem mem_cleanSub4Go (c : Char) :
    ∀ (l : List Char) (b : Bool), c ∈ cleanSub4Go b l → c ∈ l ∨ c = ' ' := by
  intro l
  induction l with
  | nil => intro b h; simp [cleanSub4Go] at h
  | cons a rest ih =>
    intro b h
    simp only [cleanSub4Go] at h
    split_ifs at h
    · rcases ih true h with h' | h'
      · exact Or.inl (List.mem_cons_of_mem a h')
      · exact Or.inr h'
    · rcases List.mem_cons.mp h with rfl | h'
      · exact Or.inr rfl
      · rcases ih true h' with h'' | h''
        · exact Or.inl (List.mem_cons_of_mem a h'')
        · exact Or.inr h''
    · rcases List.mem_cons.mp h with rfl | h'
      · exact Or.inl (List.mem_cons_self _ _)
      · rcases ih false h' with h'' | h''
        · exact Or.inl (List.mem_cons_of_mem a h'')
        · exact Or.inr h''

/-- Characters of `pyStrip`'s output come from its input. -/
theorem mem_pyStrip (c : Char) (l : List Char) (h : c ∈ pyStrip l) : c ∈ l := by
  unfold pyStrip at h
  rw [List.mem_reverse] at h
  have h1 := ((List.dropWhile_suffix isPySpace).sublist.subset) h
  rw [List.mem_reverse] at h1
  exact ((List.dropWhile_suffix isPySpace).sublist.subset) h1

/-- Outside a removal run, the first substitution only acts after a
newline, so a newline-free text passes through unchanged. -/
theorem cleanSub1Go_false_eq_self (l : List Char) (h : '\n' ∉ l) :
    cleanSub1Go false l = l := by
  induction l with
  | nil => rfl
  | cons a rest ih =>
    have ha : ¬ a = '\n' := fun he => h (he ▸ List.mem_cons_self _ _)
    simp only [cleanSub1Go, Bool.false_and, Bool.false_eq_true, if_false, ha,
      List.cons.injEq, true_and]
    exact ih (fun hm => h (List.mem_cons_of_mem a hm))

/-- The first substitution is the identity on a newline-free text whose head
is not in the `[\s•\-\*]` class. -/
theorem cleanSub1_eq_self (a : Char) (rest : List Char)
    (ha : inBulletClass a = false) (h : '\n' ∉ a :: rest) :
    cleanSub1 (a :: rest) = a :: rest := by
  have hnl : ¬ a = '\n' := fun he => h (he ▸ List.mem_cons_self _ _)
  simp only [cleanSub1, cleanSub1Go, ha, Bool.and_false, Bool.false_eq_true,
    if_false, hnl, List.cons.injEq, true_and]
  exact cleanSub1Go_false_eq_self rest (fun hm => h (List.mem_cons_of_mem a hm))

/-- The second substitution is the identity on circled-digit-free text. -/
theorem cleanSub2Go_false_eq_self (l : List Char)
    (h : ∀ c ∈ l, circledDigits.contains c = false) :
    cleanSub2Go false l = l := by
  induction l with
  | nil => rfl
  | cons a rest ih =>
    have ha := h a (List.mem_cons_self _ _)
    simp only [cleanSub2Go, Bool.false_and, Bool.false_eq_true, if_false, ha,
      List.cons.injEq, true_and]
    exact ih (fun c hc => h c (List.mem_cons_of_mem a hc))

/-- The third substitution is the identity on text without `(`. -/
theorem cleanSub3Fuel_eq_self (fuel : Nat) :
    ∀ l : List Char, '(' ∉ l → cleanSub3Fuel fuel l = l := by
  induction fuel with
  | zero => intro l _; rfl
  | succ fuel ih =>
    intro l h
    cases l with
    | nil => rfl
    | cons a rest =>
      have ha : ¬ a = '(' := fun he => h (he ▸ List.mem_cons_self _ _)
      simp only [cleanSub3Fuel, ha, decide_False, Bool.false_and,
        Bool.false_eq_true, if_false, List.cons.injEq, true_and]
      exact ih rest (fun hm => h (List.mem_cons_of_mem a hm))

/-- The head of the first substitution's output is never in the removal
class. -/
theorem cleanSub1Go_true_head (l : List Char) (d : Char)
    (h : (cleanSub1Go true l).head? = some d) : inBulletClass d = false := by
  induction l with
  | nil => simp [cleanSub1Go] at h
  | cons a rest ih =>
    simp only [cleanSub1Go, Bool.true_and] at h
    split_ifs at h with h1 h2
    · exact ih h
    · rw [List.head?_cons, Option.some.injEq] at h
      subst h
      rw [h2] at h1
      exact absurd (by decide) h1
    · rw [List.head?_cons, Option.some.injEq] at h
      subst h
      simp only [Bool.true_and, Bool.not_eq_true] at h1
      exact h1

/-- The head of a whitespace run's replacement is never whitespace. -/
theorem cleanSub4Go_true_head (l : List Char) (d : Char)
    (h : (cleanSub4Go true l).head? = some d) : isPySpace d = false := by
  induction l with
  | nil => simp [cleanSub4Go] at h
  | cons a rest ih =>
    simp only [cleanSub4Go] at h
    split_ifs at h with h1
    · exact ih h
    · rw [List.head?_cons, Option.some.injEq] at h
      subst h
      simpa using h1

/-- Whitespace in the fourth substitution's output is always the plain
space. -/
theorem cleanSub4Go_space_mem (c : Char) :
    ∀ (l : List Char) (b : Bool),
      c ∈ cleanSub4Go b l → isPySpace c = true → c = ' ' := by
  intro l
  induction l with
  | nil => intro b h _; simp [cleanSub4Go] at h
  | cons a rest ih =>
    intro b h hsp
    simp only [cleanSub4Go] at h
    split_ifs at h with h1
    · exact ih true h hsp
    · rcases List.mem_cons.mp h with rfl | h'
      · rfl
      · exact ih true h' hsp
    · rcases List.mem_cons.mp h with rfl | h'
      · rw [hsp] at h1; cases h1 rfl
      · exact ih false h' hsp

/-- Adjacent characters of the fourth substitution's output are never both
whitespace. -/
theorem cleanSub4Go_chain (l : List Char) : ∀ b : Bool,
    (cleanSub4Go b l).Chain'
      (fun a d => ¬(isPySpace a = true ∧ isPySpace d = true)) := by
  induction l with
  | nil => intro b; simp [cleanSub4Go]
  | cons a rest ih =>
    intro b
    by_cases ha : isPySpace a = true
    · by_cases hb : b = true
      · simpa [cleanSub4Go, ha, hb] using ih true
      · have hb' : b = false := by revert hb; cases b <;> simp
        subst hb'
        simp only [cleanSub4Go, ha, if_true, Bool.false_eq_true, if_false]
        rw [List.chain'_cons']
        refine ⟨?_, ih true⟩
        intro d hd
        rw [cleanSub4Go_true_head rest d hd]
        simp
    · simp only [cleanSub4Go, ha, Bool.false_eq_true, if_false]
      rw [List.chain'_cons']
      refine ⟨?_, ih false⟩
      intro d _
      simp [ha]

/-- The fourth substitution is the identity on text whose whitespace is
single plain spaces with no two adjacent. -/
theorem cleanSub4Go_eq_self (l : List Char)
    (hsp : ∀ c ∈ l, isPySpace c = true → c = ' ')
    (hch : l.Chain' (fun a d => ¬(isPySpace a = true ∧ isPySpace d = true))) :
    cleanSub4Go false l = l ∧
      ((∀ d, l.head? = some d → isPySpace d = false) → cleanSub4Go true l = l) := by
  induction l with
  | nil => exact ⟨rfl, fun _ => rfl⟩
  | cons a rest ih =>
    have hsp' : ∀ c ∈ rest, isPySpace c = true → c = ' ' :=
      fun c hc => hsp c (List.mem_cons_of_mem a hc)
    obtain ⟨hhead, hch'⟩ := List.chain'_cons'.mp hch
    obtain ⟨ihf, iht⟩ := ih hsp' hch'
    by_cases ha : isPySpace a = true
    · have haeq : a = ' ' := hsp a (List.mem_cons_self _ _) ha
      constructor
      · simp only [cleanSub4Go, ha, if_true, Bool.false_eq_true, if_false]
        have hht : ∀ d, rest.head? = some d → isPySpace d = false := by
          intro d hd
          have := hhead d hd
          rw [ha] at this
          by_cases hdsp : isPySpace d = true
          · exact absurd ⟨rfl, hdsp⟩ this
          · simpa using hdsp
        rw [iht hht, haeq]
      · intro hhd
        have := hhd a rfl
        rw [ha] at this
        cases this
    · constructor
      · simp only [cleanSub4Go, ha, Bool.false_eq_true, if_false]
        rw [ihf]
      · intro _
        simp only [cleanSub4Go, ha, Bool.false_eq_true, if_false]
        rw [ihf]

/-- The head of a `dropWhile` result fails the predicate. -/
theorem dropWhile_head_not (p : Char → Bool) (l : List Char) (d : Char)
    (h : (l.dropWhile p).head? = some d) : p d = false := by
  induction l with
  | nil => simp at h
  | cons a rest ih =>
    rw [List.dropWhile_cons] at h
    split_ifs at h with ha
    · exact ih h
    · rw [List.head?_cons, Option.some.injEq] at h
      subst h
      simpa using ha

/-- A list whose head fails the predicate is untouched by `dropWhile`. -/
theorem dropWhile_eq_self_of_head (p : Char → Bool) (l : List Char)
    (h : ∀ d, l.head? = some d → p d = false) : l.dropWhile p = l := by
  cases l with
  | nil => rfl
  | cons a rest =>
    rw [List.dropWhile_cons]
    simp [h a rfl]

/-- `pyStrip l` sits in the middle of `l`. -/
theorem pyStrip_middle (l : List Char) : ∃ s t, l = s ++ pyStrip l ++ t := by
  obtain ⟨s, hs⟩ := List.dropWhile_suffix (l := l) isPySpace
  obtain ⟨t, ht⟩ := List.dropWhile_suffix
    (l := (l.dropWhile isPySpace).reverse) isPySpace
  refine ⟨s, t.reverse, ?_⟩
  have hu : l.dropWhile isPySpace = pyStrip l ++ t.reverse := by
    have hr := congrArg List.reverse ht
    rw [List.reverse_append, List.reverse_reverse] at hr
    exact hr.symm
  rw [List.append_assoc, ← hu]
  exact hs.symm

/-- The head of `pyStrip`'s output is never whitespace. -/
theorem pyStrip_head_not_space (l : List Char) (d : Char)
    (h : (pyStrip l).head? = some d) : isPySpace d = false := by
  obtain ⟨t, ht⟩ := List.dropWhile_suffix
    (l := (l.dropWhile isPySpace).reverse) isPySpace
  have hu : l.dropWhile isPySpace = pyStrip l ++ t.reverse := by
    have hr := congrArg List.reverse ht
    rw [List.reverse_append, List.reverse_reverse] at hr
    exact hr.symm
  have hh : (l.dropWhile isPySpace).head? = some d := by
    rw [hu]
    cases hps : pyStrip l with
    | nil => rw [hps] at h; simp at h
    | cons x xs =>
      rw [hps] at h
      rw [List.head?_cons, Option.some.injEq] at h
      subst h
      rfl
  exact dropWhile_head_not isPySpace l d hh

/-- `pyStrip` keeps a leading non-whitespace character in place. -/
theorem pyStrip_cons_of_not_space (c : Char) (rest : List Char)
    (hc : isPySpace c = false) : ∃ t, pyStrip (c :: rest) = c :: t := by
  have hu : (c :: rest).dropWhile isPySpace = c :: rest := by
    rw [List.dropWhile_cons]
    simp [hc]
  have hcmem : c ∈ (c :: rest).dropWhile isPySpace := by
    rw [hu]; exact List.mem_cons_self _ _
  have hcv : c ∈ ((c :: rest).dropWhile isPySpace).reverse.dropWhile isPySpace := by
    apply mem_dropWhile_of_mem _ _ hc
    rw [List.mem_reverse]
    exact hcmem
  obtain ⟨t, ht⟩ := List.dropWhile_suffix
    (l := ((c :: rest).dropWhile isPySpace).reverse) isPySpace
  have hsplit : c :: rest = pyStrip (c :: rest) ++ t.reverse := by
    have hthis : (c :: rest).dropWhile isPySpace
        = pyStrip (c :: rest) ++ t.reverse := by
      have hr := congrArg List.reverse ht
      rw [List.reverse_append, List.reverse_reverse] at hr
      exact hr.symm
    rw [← hthis]
    exact hu.symm
  cases hps : pyStrip (c :: rest) with
  | nil =>
    exfalso
    have : pyStrip (c :: rest) ≠ [] := by
      unfold pyStrip
      simp only [ne_eq, List.reverse_eq_nil_iff]
      intro hnil
      rw [hnil] at hcv
      exact absurd hcv (List.not_mem_nil c)
    exact this hps
  | cons x xs =>
    rw [hps] at hsplit
    rw [List.cons_append] at hsplit
    injection hsplit with h1 _
    exact ⟨xs, by rw [h1]⟩

/-- `pyStrip` is idempotent. -/
theorem pyStrip_idempotent (l : List Char) : pyStrip (pyStrip l) = pyStrip l := by
  have h1 : (pyStrip l).dropWhile isPySpace = pyStrip l :=
    dropWhile_eq_self_of_head isPySpace (pyStrip l) (pyStrip_head_not_space l)
  have h2 : (pyStrip l).reverse =
      ((l.dropWhile isPySpace).reverse).dropWhile isPySpace := by
    unfold pyStrip
    rw [List.reverse_reverse]
  have h3 : ((pyStrip l).reverse).dropWhile isPySpace = (pyStrip l).reverse := by
    apply dropWhile_eq_self_of_head
    intro d hd
    rw [h2] at hd
    exact dropWhile_head_not isPySpace _ d hd
  have hdef : pyStrip (pyStrip l) =
      (((pyStrip l).dropWhile isPySpace).reverse.dropWhile isPySpace).reverse := rfl
  rw [hdef, h1, h3, List.reverse_reverse]

/-- A chain property restricted to a middle segment. -/
theorem chain'_of_append_middle {R : Char → Char → Prop} (s m t : List Char)
    (h : List.Chain' R (s ++ m ++ t)) : List.Chain' R m :=
  ((List.chain'_append.mp ((List.chain'_append.mp h).1)).2).1

/-- C7 counterexample: `clean_clause_text` is not idempotent. Removing the
enumeration marker `(2)` from `"(1(2) )a"` splices the characters `(1` and
`)a` into a fresh marker `(1)`, which only the second pass removes:
the first pass yields `"(1)a"`, the second `"a"`. -/
theorem clean_clause_text_not_idempotent :
    clean_clause_text (clean_clause_text "(1(2) )a".toList) ≠
      clean_clause_text "(1(2) )a".toList := by decide

/-- C7 as amended: `clean_clause_text` is idempotent on every input that
contains no `'('` and no circled digit ①-⑩ — without such characters no
removal can splice or expose a new removable marker, and the remaining
passes (line-leading bullet strip, whitespace collapse, strip) are stable on
their own output. -/
theorem clean_clause_text_idempotent_marker_free (x : List Char)
    (hp : '(' ∉ x) (hc : ∀ c ∈ x, circledDigits.contains c = false) :
    clean_clause_text (clean_clause_text x) = clean_clause_text x := by
  have hz_mem : ∀ c ∈ cleanSub1 x, c ∈ x := fun c h => mem_cleanSub1Go c x true h
  have hz2 : cleanSub2 (cleanSub1 x) = cleanSub1 x :=
    cleanSub2Go_false_eq_self _ (fun c h => hc c (hz_mem c h))
  have hz3 : cleanSub3 (cleanSub1 x) = cleanSub1 x :=
    cleanSub3Fuel_eq_self _ _ (fun h => hp (hz_mem _ h))
  have hyw : clean_clause_text x = pyStrip (cleanSub4 (cleanSub1 x)) := by
    unfold clean_clause_text
    rw [hz2, hz3]
  have hw_sp : ∀ c ∈ cleanSub4 (cleanSub1 x), isPySpace c = true → c = ' ' :=
    fun c h => cleanSub4Go_space_mem c _ false h
  have hw_mem : ∀ c ∈ cleanSub4 (cleanSub1 x), c ∈ cleanSub1 x ∨ c = ' ' :=
    fun c h => mem_cleanSub4Go c _ false h
  have hy_mem_w : ∀ c ∈ clean_clause_text x, c ∈ cleanSub4 (cleanSub1 x) := by
    intro c h
    rw [hyw] at h
    exact mem_pyStrip c _ h
  have hy_sp : ∀ c ∈ clean_clause_text x, isPySpace c = true → c = ' ' :=
    fun c h => hw_sp c (hy_mem_w c h)
  have hy_nl : '\n' ∉ clean_clause_text x := by
    intro h
    have := hy_sp '\n' h (by decide)
    exact absurd this (by decide)
  have hy_paren : '(' ∉ clean_clause_text x := by
    intro h
    rcases hw_mem '(' (hy_mem_w '(' h) with h' | h'
    · exact hp (hz_mem '(' h')
    · exact absurd h' (by decide)
  have hy_circ : ∀ c ∈ clean_clause_text x, circledDigits.contains c = false := by
    intro c h
    rcases hw_mem c (hy_mem_w c h) with h' | h'
    · exact hc c (hz_mem c h')
    · rw [h']; decide
  have hch_y : (clean_clause_text x).Chain'
      (fun a d => ¬(isPySpace a = true ∧ isPySpace d = true)) := by
    obtain ⟨s, t, hst⟩ := pyStrip_middle (cleanSub4 (cleanSub1 x))
    have hw : (cleanSub4 (cleanSub1 x)).Chain'
        (fun a d => ¬(isPySpace a = true ∧ isPySpace d = true)) :=
      cleanSub4Go_chain (cleanSub1 x) false
    rw [hst] at hw
    rw [hyw]
    exact chain'_of_append_middle _ _ _ hw
  have hps : pyStrip (clean_clause_text x) = clean_clause_text x := by
    rw [hyw]
    exact pyStrip_idempotent _
  have h4 : cleanSub4 (clean_clause_text x) = clean_clause_text x :=
    (cleanSub4Go_eq_self _ hy_sp hch_y).1
  have h2' : cleanSub2 (clean_clause_text x) = clean_clause_text x :=
    cleanSub2Go_false_eq_self _ hy_circ
  have h3' : cleanSub3 (clean_clause_text x) = clean_clause_text x :=
    cleanSub3Fuel_eq_self _ _ hy_paren
  have h1' : cleanSub1 (clean_clause_text x) = clean_clause_text x := by
    cases hy : clean_clause_text x with
    | nil => rfl
    | cons d t =>
      have hz_shape : cleanSub1 x ≠ [] := by
        intro hznil
        rw [hyw, hznil] at hy
        simp [cleanSub4, cleanSub4Go, pyStrip] at hy
      cases hz : cleanSub1 x with
      | nil => exact absurd hz hz_shape
      | cons e z' =>
        have he_bullet : inBulletClass e = false := by
          apply cleanSub1Go_true_head x
          rw [show cleanSub1Go true x = cleanSub1 x from rfl, hz]
          rfl
        have he_sp : isPySpace e = false := by
          have hb := he_bullet
          simp only [inBulletClass, Bool.or_eq_false_iff] at hb
          exact hb.1.1.1
        have hw_shape : cleanSub4 (cleanSub1 x) = e :: cleanSub4Go false z' := by
          rw [hz]
          show cleanSub4Go false (e :: z') = e :: cleanSub4Go false z'
          simp [cleanSub4Go, he_sp]
        obtain ⟨t2, ht2⟩ := pyStrip_cons_of_not_space e (cleanSub4Go false z') he_sp
        have hy2 : clean_clause_text x = e :: t2 := by
          rw [hyw, hw_shape, ht2]
        have hde : d = e := by
          rw [hy] at hy2
          exact (List.cons_eq_cons.mp hy2).1
        rw [hy] at hy_nl
        exact cleanSub1_eq_self d t (hde ▸ he_bullet) hy_nl
  calc clean_clause_text (clean_clause_text x)
      = pyStrip (cleanSub4 (cleanSub3 (cleanSub2
          (cleanSub1 (clean_clause_text x))))) := rfl
    _ = clean_clause_text x := by rw [h1', h2', h3', h4, hps]

/-- Witness for C7's amended statement at a concrete marker-free input. -/
theorem clean_clause_text_idempotent_marker_free_witness :
    clean_clause_text (clean_clause_text "hello   world\n- next".toList)
      = clean_clause_text "hello   world\n- next".toList :=
  clean_clause_text_idempotent_marker_free "hello   world\n- next".toList
    (by decide) (by decide)
